import Mathlib

/-!
# Inventory module: route dispatch and dynamic statement construction

A shallow embedding of `handlers/plugin.go` (`GetHandler`, `matchRoute`) and of the
statement builders of `handlers/inventory_handler.go` (`UpdateProduct`, `GetProducts`),
with the properties of the specification stated and settled over it.

Go strings are modelled by Lean `String`s. The separators the code splits on (a space
and `/`) are single characters, so `strings.Split` is modelled for a one-character
separator. A Go map is modelled by the list of its entries; where the code ranges over a
map, the order of the enumeration is an explicit list. The library function
`strings.ToUpper` is a parameter of `GetHandler`, so that what is proved of `GetHandler`
holds for the library's Unicode case mapping.
-/

namespace Inventory

/-! ## `plugin.go`: string helpers, `matchRoute` and `GetHandler` -/

/-- Character-level `strings.Split` for a one-character separator: the pieces between
consecutive separators, so the empty input gives one empty piece. -/
def splitChars (sep : Char) : List Char → List (List Char)
  | [] => [[]]
  | c :: cs =>
    if c = sep then [] :: splitChars sep cs
    else
      match splitChars sep cs with
      | [] => [[c]]
      | seg :: rest => (c :: seg) :: rest

/-- Go `strings.Split(s, sep)` for a one-character separator. -/
def Split (s : String) (sep : Char) : List String :=
  (splitChars sep s.data).map String.mk

/-- Go `strings.TrimPrefix(s, "/")`: drops one leading `/` when there is one. -/
def TrimPrefix (s : String) : String :=
  match s.data with
  | '/' :: rest => String.mk rest
  | _ => s

/-- The value of Go `strings.ToUpper` on a string of ASCII characters: `a..z` go to `A..Z`
and the other ASCII characters stay. It stands for `strings.ToUpper` only in the concrete
evaluations below, all at ASCII methods; the Unicode case tables of the Go library are not
modelled, and `GetHandler` takes the case mapping as a parameter. -/
def upperASCII (s : String) : String :=
  String.mk (s.data.map Char.toUpper)

/-- Go `strings.HasPrefix(s, "{")`. -/
def HasPrefix (s : String) : Bool :=
  s.data.head? == some '{'

/-- Go `strings.HasSuffix(s, "}")`. -/
def HasSuffix (s : String) : Bool :=
  s.data.getLast? == some '}'

/-- The handler functions of `InventoryHandler` that the route table refers to. -/
inductive Handler where
  | GetProducts
  | CreateProduct
  | GetProduct
  | UpdateProduct
  | DeleteProduct
  | GetStockLevels
  | GetCategories
  | CreateCategory
  deriving DecidableEq, Repr

/-- The loop of `matchRoute` over the pattern's segments: a position fails when the
segments differ and the pattern segment is not wrapped in braces. -/
def segmentsMatch : List String → List String → Bool
  | p :: ps, a :: as =>
    if p ≠ a && !(HasPrefix p && HasSuffix p) then false else segmentsMatch ps as
  | _, _ => true

/-- The function `matchRoute(pattern, actual)` of `plugin.go`. -/
def matchRoute (pattern actual : String) : Bool :=
  match Split pattern ' ', Split actual ' ' with
  | [pm, pPath], [am, aPath] =>
    if pm ≠ am then false
    else if (Split pPath '/').length ≠ (Split aPath '/').length then false
    else segmentsMatch (Split pPath '/') (Split aPath '/')
  | _, _ => false

/-- The `handlers` map literal of `GetHandler`, as its list of entries. -/
def handlers : List (String × Handler) :=
  [ ("GET /products", Handler.GetProducts),
    ("POST /products", Handler.CreateProduct),
    ("GET /products/{id}", Handler.GetProduct),
    ("PUT /products/{id}", Handler.UpdateProduct),
    ("DELETE /products/{id}", Handler.DeleteProduct),
    ("GET /stock-levels", Handler.GetStockLevels),
    ("GET /categories", Handler.GetCategories),
    ("POST /categories", Handler.CreateCategory) ]

/-- The key `method + " " + route` after the two normalisations of `GetHandler`; `upper` is
the library function `strings.ToUpper`. -/
def routeKey (upper : String → String) (route method : String) : String :=
  upper method ++ " " ++ TrimPrefix route

/-- The method `GetHandler(route, method)` of `plugin.go`. The parameter `upper` is
`strings.ToUpper` of the Go standard library, whose Unicode case tables are no part of the
repository: the facts below are proved for every function `upper`, hence for the library's.
Go iterates a map in an unspecified order; `order` is the order in which the `range` loop
visits the entries (a permutation of `handlers`). The result is the handler, or the text of
the error. -/
def GetHandler (upper : String → String) (order : List (String × Handler))
    (route method : String) : Except String Handler :=
  let key := routeKey upper route method
  match handlers.lookup key with
  | some handler => Except.ok handler
  | none =>
    match order.find? (fun e => matchRoute e.1 key) with
    | some e => Except.ok e.2
    | none =>
      Except.error ("handler not found for route: " ++ upper method ++ " " ++ TrimPrefix route)

/-! ## `inventory_handler.go`: the dynamic update of `UpdateProduct` -/

/-- The map literal `allowedFields` of `UpdateProduct`. -/
def allowedFields : List (String × Bool) :=
  [ ("name", true), ("description", true), ("cost_price", true),
    ("selling_price", true), ("is_active", true) ]

/-- The Go map read `allowedFields[key]`: a missing key reads as `false`. -/
def allowedFieldsAt (key : String) : Bool :=
  (allowedFields.lookup key).getD false

/-- An element of the `[]interface{}` argument list: a decoded body value, or the
product id parsed from the URL. -/
inductive Arg (α : Type) where
  | value (v : α) : Arg α
  | id (n : Int) : Arg α
  deriving DecidableEq, Repr

/-- The three loop variables `updates`, `args` and `argIdx` of `UpdateProduct`. -/
structure UpdateBuilder (α : Type) where
  updates : List String
  args : List (Arg α)
  argIdx : Nat

/-- The loop `for key, val := range req` of `UpdateProduct`; the list is the body map in
the order the loop enumerates it. -/
def collectUpdates {α : Type} : List (String × α) → UpdateBuilder α → UpdateBuilder α
  | [], st => st
  | (key, val) :: rest, st =>
    if allowedFieldsAt key then
      collectUpdates rest
        { updates := st.updates ++ [key ++ " = $" ++ toString st.argIdx]
          args := st.args ++ [Arg.value val]
          argIdx := st.argIdx + 1 }
    else collectUpdates rest st

/-- What `UpdateProduct` does after decoding: answer a bad request, or hand a statement and
its arguments to `db.Exec`. -/
inductive UpdateOutcome (α : Type) where
  | badRequest (message : String) : UpdateOutcome α
  | exec (query : String) (args : List (Arg α)) : UpdateOutcome α
  deriving DecidableEq, Repr

/-- The method `UpdateProduct` from the decoded body `req` and the parsed `id` up to the call
of `db.Exec`. -/
def UpdateProduct {α : Type} (req : List (String × α)) (id : Int) : UpdateOutcome α :=
  let st := collectUpdates req { updates := [], args := [], argIdx := 1 }
  match st.updates with
  | [] => UpdateOutcome.badRequest "No fields to update"
  | first :: rest =>
    let query := rest.foldl (fun q u => q ++ ", " ++ u) ("UPDATE products SET " ++ first)
    let query := query ++ " WHERE id = $" ++ toString st.argIdx
    UpdateOutcome.exec query (st.args ++ [Arg.id id])

/-- A small JSON value type for concrete bodies; the builder never inspects values. -/
inductive JSONValue where
  | null
  | bool (b : Bool)
  | number (n : Int)
  | string (s : String)
  deriving DecidableEq, Repr

/-! ## `inventory_handler.go`: the statement of `GetProducts`

`GetProducts` builds its statement with the query builder of the module SDK
(`sdk.NewQueryBuilder`, `AddCondition`, `AddOptionalCondition`, `Build`), whose source is
not among the handler files; the builder below follows its specification. -/

/-- Modelled from the spec: the value bound to a condition of the SDK query builder (whose
source is missing): a string, a number, or nil. -/
inductive Value where
  | null
  | int (n : Int)
  | str (s : String)
  deriving DecidableEq, Repr

/-- Modelled from the spec: trimming of a string value (the SDK query builder is missing);
white space is dropped at both ends. -/
def TrimSpace (s : String) : String :=
  String.mk ((s.data.dropWhile Char.isWhitespace).reverse.dropWhile Char.isWhitespace).reverse

/-- Modelled from the spec: the test of `AddOptionalCondition` (SDK query builder, missing)
for "the type's zero/empty representation (empty string, nil, zero)", where an "empty value
after trimming is treated as absent". -/
def Value.isEmpty : Value → Bool
  | Value.null => true
  | Value.int n => n == 0
  | Value.str s => TrimSpace s == ""

/-- Modelled from the spec: a piece of a condition of the SDK query builder (missing) once
its markers are substituted: a character of the template, or the index put in place of a
marker. -/
inductive Frag where
  | text (c : Char)
  | index (n : Nat)
  deriving DecidableEq, Repr

/-- Modelled from the spec: the text of a substituted condition (SDK query builder,
missing); an index is written in decimal. -/
def renderFrags : List Frag → String
  | [] => ""
  | Frag.text c :: rest => String.singleton c ++ renderFrags rest
  | Frag.index n :: rest => toString n ++ renderFrags rest

/-- Modelled from the spec: the indices substituted into a condition (SDK query builder,
missing), left to right. -/
def indicesOf : List Frag → List Nat
  | [] => []
  | Frag.text _ :: rest => indicesOf rest
  | Frag.index n :: rest => n :: indicesOf rest

/-- The state of the scan for `$n` placeholders in a statement text. -/
inductive ScanState where
  | idle
  | dollar
  | number (n : Nat)

/-- The numbers of the positional placeholders `$1`, `$2`, ... that occur in a statement
text, in order of occurrence (the format the storage layer reads). -/
def scanPlaceholders : List Char → ScanState → List Nat
  | [], ScanState.number n => [n]
  | [], _ => []
  | c :: cs, st =>
    if c.isDigit then
      match st with
      | ScanState.idle => scanPlaceholders cs ScanState.idle
      | ScanState.dollar => scanPlaceholders cs (ScanState.number (c.toNat - 48))
      | ScanState.number n => scanPlaceholders cs (ScanState.number (10 * n + (c.toNat - 48)))
    else
      (match st with
        | ScanState.number n => [n]
        | _ => []) ++
      scanPlaceholders cs (if c = '$' then ScanState.dollar else ScanState.idle)

/-- The placeholder numbers of a statement. -/
def placeholders (statement : String) : List Nat :=
  scanPlaceholders statement.data ScanState.idle

/-- Modelled from the spec: the QueryState of the SDK query builder (missing): the base
statement, the accepted conditions, the bound values and the next free placeholder index. -/
structure QueryState where
  base : String
  conditions : List (List Frag)
  args : List Value
  next : Nat
  deriving DecidableEq, Repr

/-- Modelled from the spec: `New(baseStatement)` of the SDK query builder (missing): no
conditions, and the next free index "starts at the count already used by the base statement
+ 1". -/
def NewQueryBuilder (base : String) : QueryState :=
  { base := base, conditions := [], args := [], next := (placeholders base).length + 1 }

/-- Modelled from the spec: the marker loop of `AddCondition` (SDK query builder, missing):
"for each marker encountered, left to right, the builder (i) substitutes the current
next-free index into the marker, (ii) advances the index by one, and (iii) appends a copy of
value to the argument list". A marker is the verb `%d`; `skip` says that the character at
hand is the `d` of a marker already substituted. The triple is the condition built so far,
the argument list and the next free index. -/
def substituteMarkers (value : Value) :
    List Char → Bool → List Frag × List Value × Nat → List Frag × List Value × Nat
  | [], _, acc => acc
  | c :: rest, skip, (frags, args, next) =>
    if skip then substituteMarkers value rest false (frags, args, next)
    else if c = '%' ∧ rest.head? = some 'd' then
      substituteMarkers value rest true (frags ++ [Frag.index next], args ++ [value], next + 1)
    else substituteMarkers value rest false (frags ++ [Frag.text c], args, next)

/-- Modelled from the spec: `AddCondition(template, value)` of the SDK query builder
(missing): "unconditionally appends the condition". -/
def QueryState.AddCondition (st : QueryState) (template : String) (value : Value) :
    QueryState :=
  let r := substituteMarkers value template.data false ([], st.args, st.next)
  { st with conditions := st.conditions ++ [r.1], args := r.2.1, next := r.2.2 }

/-- Modelled from the spec: `AddOptionalCondition(template, value)` of the SDK query builder
(missing): "identical to AddCondition except the entire condition ... is skipped when value
is the type's zero/empty representation". -/
def QueryState.AddOptionalCondition (st : QueryState) (template : String) (value : Value) :
    QueryState :=
  if value.isEmpty then st else st.AddCondition template value

/-- Modelled from the spec: `Build()` of the SDK query builder (missing): "the base
statement with each accepted condition appended, joined by AND, together with the argument
list in the exact order values were bound". -/
def QueryState.Build (st : QueryState) : String × List Value :=
  (st.conditions.foldl (fun q c => q ++ " AND " ++ renderFrags c) st.base, st.args)

/-- The indices substituted into the conditions of a state, in statement order. -/
def QueryState.indices (st : QueryState) : List Nat :=
  st.conditions.flatMap indicesOf

/-- A call made on a query builder. -/
inductive BuilderCall where
  | addCondition (template : String) (value : Value)
  | addOptionalCondition (template : String) (value : Value)

/-- The effect of one call on the state. -/
def QueryState.call (st : QueryState) : BuilderCall → QueryState
  | BuilderCall.addCondition template value => st.AddCondition template value
  | BuilderCall.addOptionalCondition template value => st.AddOptionalCondition template value

/-- The method `GetProducts` from its two query parameters up to the call of `db.Select`:
the statement and its arguments. -/
def GetProducts (search categoryID : String) : String × List Value :=
  let qb := NewQueryBuilder "SELECT * FROM products WHERE is_active = true"
  let qb :=
    if search ≠ "" then
      qb.AddCondition "(name ILIKE $%d OR sku ILIKE $%d)" (Value.str ("%" ++ search ++ "%"))
    else qb
  let qb := qb.AddOptionalCondition "category_id = $%d" (Value.str categoryID)
  let built := qb.Build
  (built.1 ++ " ORDER BY name LIMIT 50", built.2)

/-! ## The statement and argument list the specification words for the dynamic update -/

/-- The entries of the body whose key the allow-list accepts, in enumeration order. -/
def allowedEntries {α : Type} (req : List (String × α)) : List (String × α) :=
  req.filter (fun e => allowedFieldsAt e.1)

/-- The assignments `f1 = $i, f2 = $(i+1), ...` for the field names `f1, f2, ...`. -/
def assignments : List String → Nat → List String
  | [], _ => []
  | f :: fs, i => (f ++ " = $" ++ toString i) :: assignments fs (i + 1)

/-- The statement `UPDATE products SET f1 = $1, ..., fk = $k WHERE id = $(k+1)` for the
field names `f1, ..., fk`. -/
def expectedStatement (fs : List String) : String :=
  "UPDATE products SET " ++ ", ".intercalate (assignments fs 1) ++
    " WHERE id = $" ++ toString (fs.length + 1)

/-- The argument list `[v1, ..., vk, id]` for the entries `(f1, v1), ..., (fk, vk)`. -/
def expectedArgs {α : Type} (es : List (String × α)) (id : Int) : List (Arg α) :=
  es.map (fun e => Arg.value e.2) ++ [Arg.id id]

/-! ## Definitions used in the proofs -/

/-- Two segment lists can be matched by one request: position by position the segments
are equal or one of them is a brace-wrapped parameter. -/
def segmentsOverlap : List String → List String → Bool
  | p :: ps, q :: qs =>
    (p == q || (HasPrefix p && HasSuffix p) || (HasPrefix q && HasSuffix q)) &&
      segmentsOverlap ps qs
  | [], [] => true
  | _, _ => false

/-- Two route patterns can be matched by one request key. -/
def patternsOverlap (p q : String) : Bool :=
  match Split p ' ', Split q ' ' with
  | [pm, pPath], [qm, qPath] =>
    pm == qm && segmentsOverlap (Split pPath '/') (Split qPath '/')
  | _, _ => false

/-- The condition that the marker loop builds from a template when the next free index is
`next`: it does not depend on the bound value. -/
def templateFrags : List Char → Bool → Nat → List Frag
  | [], _, _ => []
  | c :: rest, skip, next =>
    if skip then templateFrags rest false next
    else if c = '%' ∧ rest.head? = some 'd' then
      Frag.index next :: templateFrags rest true (next + 1)
    else Frag.text c :: templateFrags rest false next

/-- The number of markers `%d` of a template. -/
def markerCount : List Char → Bool → Nat
  | [], _ => 0
  | c :: rest, skip =>
    if skip then markerCount rest false
    else if c = '%' ∧ rest.head? = some 'd' then markerCount rest true + 1
    else markerCount rest false

/-- The indices substituted so far (`earlier` holds those of the conditions already
accepted) are the run of consecutive numbers from `start`, one for each bound value. -/
def Contiguous (start : Nat) (earlier : List Nat) (acc : List Frag × List Value × Nat) : Prop :=
  earlier ++ indicesOf acc.1 = List.range' start acc.2.1.length ∧
    acc.2.2 = start + acc.2.1.length

/-- The invariant of a query builder whose first free index was `start`. -/
def QueryState.Gapless (start : Nat) (st : QueryState) : Prop :=
  st.indices = List.range' start st.args.length ∧ st.next = start + st.args.length

/-! ## Lemmas -/

theorem splitChars_ne_nil (sep : Char) (l : List Char) : splitChars sep l ≠ [] := by
  induction l with
  | nil => simp [splitChars]
  | cons c cs ih =>
    unfold splitChars
    split
    · simp
    · split
      · simp
      · simp

theorem splitChars_of_not_mem (sep : Char) (l : List Char) (h : sep ∉ l) :
    splitChars sep l = [l] := by
  induction l with
  | nil => rfl
  | cons c cs ih =>
    have hc : ¬ c = sep := fun e => h (by simp [e])
    have hcs : sep ∉ cs := fun e => h (by simp [e])
    simp [splitChars, hc, ih hcs]

theorem splitChars_append_sep (sep : Char) (a b : List Char) (h : sep ∉ a) :
    splitChars sep (a ++ sep :: b) = a :: splitChars sep b := by
  induction a with
  | nil => simp [splitChars]
  | cons c cs ih =>
    have hc : ¬ c = sep := fun e => h (by simp [e])
    have hcs : sep ∉ cs := fun e => h (by simp [e])
    simp [splitChars, hc, ih hcs]

theorem splitChars_length (sep : Char) (l : List Char) :
    (splitChars sep l).length = l.count sep + 1 := by
  induction l with
  | nil => rfl
  | cons c cs ih =>
    unfold splitChars
    by_cases hc : c = sep
    · subst hc
      simp [ih]
    · have hne : splitChars sep cs ≠ [] := splitChars_ne_nil sep cs
      rw [if_neg hc]
      cases hsp : splitChars sep cs with
      | nil => exact absurd hsp hne
      | cons seg rest =>
        rw [hsp] at ih
        simp only [List.length_cons] at ih ⊢
        rw [List.count_cons_of_ne (Ne.symm hc)] at *
        omega

theorem Split_length (s : String) (sep : Char) :
    (Split s sep).length = s.data.count sep + 1 := by
  simp [Split, splitChars_length]

theorem Split_of_not_mem (s : String) (sep : Char) (h : sep ∉ s.data) :
    Split s sep = [s] := by
  simp [Split, splitChars_of_not_mem sep s.data h]

theorem Split_append_sep (a b : String) (sep : Char) (h : sep ∉ a.data) :
    Split (a ++ String.singleton sep ++ b) sep = a :: Split b sep := by
  have hd : (a ++ String.singleton sep ++ b).data = a.data ++ sep :: b.data := by
    simp [String.data_append, String.singleton]
  simp [Split, hd, splitChars_append_sep sep a.data b.data h]

theorem Split_key_eq_pair (x y m p : String) (h : Split (x ++ " " ++ y) ' ' = [m, p]) :
    m = x ∧ p = y := by
  have hlen := Split_length (x ++ " " ++ y) ' '
  rw [h] at hlen
  have hd : (x ++ " " ++ y).data = x.data ++ ' ' :: y.data := by
    simp [String.data_append]
  rw [hd, List.count_append, List.count_cons_self] at hlen
  simp only [List.length_cons, List.length_nil] at hlen
  have hx : ' ' ∉ x.data := fun hmem => by
    have := List.count_pos_iff.2 hmem
    omega
  have hy : ' ' ∉ y.data := fun hmem => by
    have := List.count_pos_iff.2 hmem
    omega
  have hs : (" " : String) = String.singleton ' ' := rfl
  rw [hs, Split_append_sep x y ' ' hx, Split_of_not_mem y ' ' hy] at h
  simp only [List.cons.injEq, and_true] at h
  exact ⟨h.1.symm, h.2.symm⟩

theorem matchRoute_eq_true_iff (pattern actual : String) :
    matchRoute pattern actual = true ↔
      ∃ m pPath aPath, Split pattern ' ' = [m, pPath] ∧ Split actual ' ' = [m, aPath] ∧
        (Split pPath '/').length = (Split aPath '/').length ∧
        segmentsMatch (Split pPath '/') (Split aPath '/') = true := by
  unfold matchRoute
  split
  · next pm pPath am aPath hp ha =>
    rw [hp, ha]
    constructor
    · intro h
      by_cases hm : pm = am
      · subst hm
        by_cases hl : (Split pPath '/').length = (Split aPath '/').length
        · simp [hl] at h
          exact ⟨pm, pPath, aPath, rfl, rfl, hl, h⟩
        · simp [hl] at h
      · simp [hm] at h
    · rintro ⟨m, p, a, h1, h2, hl, hs⟩
      simp only [List.cons.injEq, and_true] at h1 h2
      obtain ⟨rfl, rfl⟩ := h1
      obtain ⟨rfl, rfl⟩ := h2
      simp [hl, hs]
  · next hne =>
    constructor
    · intro h
      exact absurd h (by simp)
    · rintro ⟨m, p, a, h1, h2, _, _⟩
      exact absurd h2 (hne m p m a h1)

theorem segmentsOverlap_of_match :
    ∀ (ps qs as : List String), ps.length = as.length → qs.length = as.length →
      segmentsMatch ps as = true → segmentsMatch qs as = true →
      segmentsOverlap ps qs = true
  | [], [], _, _, _, _, _ => rfl
  | [], _ :: _, [], _, h, _, _ => by simp at h
  | [], _ :: _, _ :: _, h, _, _, _ => by simp at h
  | _ :: _, [], [], h, _, _, _ => by simp at h
  | _ :: _, [], _ :: _, _, h, _, _ => by simp at h
  | _ :: _, _ :: _, [], h, _, _, _ => by simp at h
  | p :: ps, q :: qs, a :: as, hp, hq, mp, mq => by
    simp only [List.length_cons, Nat.add_right_cancel_iff] at hp hq
    simp only [segmentsMatch] at mp mq
    by_cases hpa : p = a <;> by_cases hqa : q = a
    all_goals
      simp [hpa, hqa] at mp mq
      simp only [segmentsOverlap]
      have ih := segmentsOverlap_of_match ps qs as hp hq (by tauto) (by tauto)
      simp [ih]
      first
        | exact Or.inl (Or.inl (hpa.trans hqa.symm))
        | tauto

theorem patternsOverlap_of_match (p q key : String)
    (hp : matchRoute p key = true) (hq : matchRoute q key = true) :
    patternsOverlap p q = true := by
  obtain ⟨m, pPath, aPath, h1, h2, hl, hs⟩ := (matchRoute_eq_true_iff p key).1 hp
  obtain ⟨m2, qPath, aPath2, h3, h4, hl2, hs2⟩ := (matchRoute_eq_true_iff q key).1 hq
  rw [h2] at h4
  simp only [List.cons.injEq, and_true] at h4
  obtain ⟨rfl, rfl⟩ := h4
  simp only [patternsOverlap, h1, h3, beq_self_eq_true, Bool.true_and]
  exact segmentsOverlap_of_match _ _ _ hl hl2 hs hs2

theorem handlers_no_overlap :
    ∀ e1 ∈ handlers, ∀ e2 ∈ handlers, patternsOverlap e1.1 e2.1 = true → e1 = e2 := by
  decide

theorem find?_eq_of_perm_of_unique {α : Type} (p : α → Bool) (l₁ l₂ : List α)
    (hperm : l₁.Perm l₂)
    (huniq : ∀ a ∈ l₁, ∀ b ∈ l₁, p a = true → p b = true → a = b) :
    l₁.find? p = l₂.find? p := by
  cases h1 : l₁.find? p with
  | none =>
    cases h2 : l₂.find? p with
    | none => rfl
    | some b =>
      have hb : b ∈ l₁ := hperm.mem_iff.2 (List.mem_of_find?_eq_some h2)
      exact absurd (List.find?_some h2) (List.find?_eq_none.1 h1 b hb)
  | some a =>
    cases h2 : l₂.find? p with
    | none =>
      have ha : a ∈ l₂ := hperm.mem_iff.1 (List.mem_of_find?_eq_some h1)
      exact absurd (List.find?_some h1) (List.find?_eq_none.1 h2 a ha)
    | some b =>
      have hb : b ∈ l₁ := hperm.mem_iff.2 (List.mem_of_find?_eq_some h2)
      rw [huniq a (List.mem_of_find?_eq_some h1) b hb (List.find?_some h1) (List.find?_some h2)]

theorem handlers_lookup_of_mem :
    ∀ e ∈ handlers, handlers.lookup e.1 = some e.2 := by
  decide

theorem handlers_match_unique (key : String) :
    ∀ e1 ∈ handlers, ∀ e2 ∈ handlers,
      matchRoute e1.1 key = true → matchRoute e2.1 key = true → e1 = e2 :=
  fun e1 h1 e2 h2 m1 m2 =>
    handlers_no_overlap e1 h1 e2 h2 (patternsOverlap_of_match e1.1 e2.1 key m1 m2)

theorem find?_handlers_of_perm (order : List (String × Handler)) (key : String)
    (hperm : order.Perm handlers) :
    order.find? (fun e => matchRoute e.1 key) = handlers.find? (fun e => matchRoute e.1 key) :=
  find?_eq_of_perm_of_unique _ order handlers hperm
    (fun a ha b hb => handlers_match_unique key a (hperm.mem_iff.1 ha) b (hperm.mem_iff.1 hb))

theorem GetHandler_of_perm (upper : String → String) (order : List (String × Handler))
    (route method : String) (hperm : order.Perm handlers) :
    GetHandler upper order route method = GetHandler upper handlers route method := by
  simp only [GetHandler, find?_handlers_of_perm order _ hperm]

theorem assignments_length (fs : List String) (i : Nat) :
    (assignments fs i).length = fs.length := by
  induction fs generalizing i with
  | nil => rfl
  | cons f fs ih => simp [assignments, ih]

theorem collectUpdates_eq {α : Type} (req : List (String × α)) (st : UpdateBuilder α) :
    collectUpdates req st =
      { updates := st.updates ++ assignments ((allowedEntries req).map Prod.fst) st.argIdx
        args := st.args ++ (allowedEntries req).map (fun e => Arg.value e.2)
        argIdx := st.argIdx + (allowedEntries req).length } := by
  induction req generalizing st with
  | nil => simp [collectUpdates, allowedEntries, assignments]
  | cons e rest ih =>
    obtain ⟨key, val⟩ := e
    by_cases hk : allowedFieldsAt key = true
    · simp only [collectUpdates, hk, if_true, ih, allowedEntries, List.filter_cons,
        List.map_cons, assignments, List.append_assoc, List.singleton_append, List.length_cons]
      congr 1
      omega
    · simp only [collectUpdates, hk, ih, allowedEntries, List.filter_cons]
      simp

theorem foldl_join_eq (sep acc : String) (us : List String) :
    us.foldl (fun q u => q ++ sep ++ u) acc = String.intercalate.go acc sep us := by
  induction us generalizing acc with
  | nil => rfl
  | cons u us ih => simp [String.intercalate.go, ih]

theorem intercalate_go_append (p acc sep : String) (us : List String) :
    String.intercalate.go (p ++ acc) sep us = p ++ String.intercalate.go acc sep us := by
  induction us generalizing acc with
  | nil => rfl
  | cons u us ih => simp [String.intercalate.go, ← ih, String.append_assoc]

theorem foldl_join_intercalate (sep p first : String) (us : List String) :
    us.foldl (fun q u => q ++ sep ++ u) (p ++ first) = p ++ sep.intercalate (first :: us) := by
  rw [foldl_join_eq, intercalate_go_append]
  rfl

theorem UpdateProduct_eq {α : Type} (req : List (String × α)) (id : Int) :
    UpdateProduct req id =
      if (allowedEntries req).isEmpty then UpdateOutcome.badRequest "No fields to update"
      else UpdateOutcome.exec (expectedStatement ((allowedEntries req).map Prod.fst))
        (expectedArgs (allowedEntries req) id) := by
  unfold UpdateProduct
  simp only [collectUpdates_eq, List.nil_append]
  cases hfs : allowedEntries req with
  | nil => simp [assignments]
  | cons e es =>
    simp only [List.map_cons, assignments, foldl_join_intercalate, expectedStatement,
      expectedArgs, List.length_cons, List.length_map, List.isEmpty_cons, Bool.false_eq_true,
      if_false, Nat.add_comm 1]

theorem indicesOf_append (xs ys : List Frag) :
    indicesOf (xs ++ ys) = indicesOf xs ++ indicesOf ys := by
  induction xs with
  | nil => rfl
  | cons x xs ih =>
    cases x with
    | text c => simpa [indicesOf] using ih
    | index n => simpa [indicesOf] using ih

theorem substituteMarkers_contiguous (value : Value) (start : Nat) (earlier : List Nat)
    (template : List Char) (skip : Bool) (acc : List Frag × List Value × Nat)
    (h : Contiguous start earlier acc) :
    Contiguous start earlier (substituteMarkers value template skip acc) := by
  induction template generalizing skip acc with
  | nil => simpa [substituteMarkers] using h
  | cons c rest ih =>
    obtain ⟨frags, args, next⟩ := acc
    unfold substituteMarkers
    split
    · exact ih _ _ h
    · split
      · apply ih
        obtain ⟨h1, h2⟩ := h
        simp only at h1 h2
        refine ⟨?_, ?_⟩
        · simp only [indicesOf_append, indicesOf, List.length_append, List.length_singleton,
            List.range'_concat, ← List.append_assoc, h1, h2, Nat.one_mul]
        · simp only [List.length_append, List.length_singleton, h2]
          omega
      · apply ih
        obtain ⟨h1, h2⟩ := h
        simp only at h1 h2
        refine ⟨?_, h2⟩
        simpa [indicesOf_append, indicesOf] using h1

theorem AddCondition_gapless (start : Nat) (st : QueryState) (template : String)
    (value : Value) (h : st.Gapless start) : (st.AddCondition template value).Gapless start := by
  have hc := substituteMarkers_contiguous value start st.indices template.data false
    ([], st.args, st.next) (by simpa [Contiguous, indicesOf] using h)
  obtain ⟨h1, h2⟩ := hc
  refine ⟨?_, h2⟩
  simpa [QueryState.indices, QueryState.AddCondition, List.flatMap_append, List.flatMap] using h1

theorem call_gapless (start : Nat) (st : QueryState) (c : BuilderCall)
    (h : st.Gapless start) : (st.call c).Gapless start := by
  cases c with
  | addCondition template value => exact AddCondition_gapless start st template value h
  | addOptionalCondition template value =>
    simp only [QueryState.call, QueryState.AddOptionalCondition]
    split
    · exact h
    · exact AddCondition_gapless start st template value h

theorem foldl_call_gapless (start : Nat) (calls : List BuilderCall) (st : QueryState)
    (h : st.Gapless start) : (calls.foldl QueryState.call st).Gapless start := by
  induction calls generalizing st with
  | nil => exact h
  | cons c cs ih => exact ih _ (call_gapless start st c h)

theorem substituteMarkers_eq (value : Value) (template : List Char) (skip : Bool)
    (frags : List Frag) (args : List Value) (next : Nat) :
    substituteMarkers value template skip (frags, args, next) =
      (frags ++ templateFrags template skip next,
        args ++ List.replicate (markerCount template skip) value,
        next + markerCount template skip) := by
  induction template generalizing skip frags args next with
  | nil => simp [substituteMarkers, templateFrags, markerCount]
  | cons c rest ih =>
    unfold substituteMarkers templateFrags markerCount
    split
    · exact ih _ _ _ _
    · split
      · rw [ih]
        simp [List.replicate_succ, Nat.add_comm, Nat.add_left_comm]
      · rw [ih]
        simp

theorem AddCondition_eq (st : QueryState) (template : String) (value : Value) :
    st.AddCondition template value =
      { base := st.base
        conditions := st.conditions ++ [templateFrags template.data false st.next]
        args := st.args ++ List.replicate (markerCount template.data false) value
        next := st.next + markerCount template.data false } := by
  simp [QueryState.AddCondition, substituteMarkers_eq]

theorem GetProducts_eq (search categoryID : String) :
    GetProducts search categoryID =
      if search = "" then
        if TrimSpace categoryID = "" then
          ("SELECT * FROM products WHERE is_active = true ORDER BY name LIMIT 50", [])
        else
          ("SELECT * FROM products WHERE is_active = true AND category_id = $1" ++
            " ORDER BY name LIMIT 50", [Value.str categoryID])
      else
        if TrimSpace categoryID = "" then
          ("SELECT * FROM products WHERE is_active = true AND " ++
            "(name ILIKE $1 OR sku ILIKE $2) ORDER BY name LIMIT 50",
            [Value.str ("%" ++ search ++ "%"), Value.str ("%" ++ search ++ "%")])
        else
          ("SELECT * FROM products WHERE is_active = true AND " ++
            "(name ILIKE $1 OR sku ILIKE $2) AND category_id = $3 ORDER BY name LIMIT 50",
            [Value.str ("%" ++ search ++ "%"), Value.str ("%" ++ search ++ "%"),
              Value.str categoryID]) := by
  have hqb : NewQueryBuilder "SELECT * FROM products WHERE is_active = true" =
      { base := "SELECT * FROM products WHERE is_active = true", conditions := [], args := [],
        next := 1 } := by
    decide
  have hm1 : markerCount "(name ILIKE $%d OR sku ILIKE $%d)".data false = 2 := by decide
  have hm2 : markerCount "category_id = $%d".data false = 1 := by decide
  by_cases hs : search = "" <;> by_cases hc : TrimSpace categoryID = ""
  all_goals
    simp only [GetProducts, QueryState.AddOptionalCondition, Value.isEmpty, hs, hc,
      beq_self_eq_true, if_true, if_false, ne_eq, not_true_eq_false, not_false_eq_true,
      beq_iff_eq, AddCondition_eq, hqb, hm1, hm2, QueryState.Build, List.nil_append,
      List.replicate, List.cons_append]
    refine Prod.ext ?_ ?_
    · dsimp only
      decide
    · rfl

end Inventory

open Inventory

/-! ## The claims -/

/-- C8. Exact-match precedence: when the key built from the upper-cased method and the
normalised path is itself a key of the handler table, `GetHandler` returns the handler
registered under that key, for every order in which the table may be iterated (and for
every case mapping `upper`, so for `strings.ToUpper`). -/
theorem GetHandler_exact_match (upper : String → String) (order : List (String × Handler))
    (route method : String) (h : Handler)
    (hk : (routeKey upper route method, h) ∈ handlers) :
    GetHandler upper order route method = Except.ok h := by
  have := handlers_lookup_of_mem _ hk
  simp only at this
  simp only [GetHandler, this]

theorem GetHandler_exact_match_witness :
    GetHandler upperASCII handlers.reverse "//products" "get" =
      Except.ok Handler.GetProducts :=
  GetHandler_exact_match upperASCII handlers.reverse "//products" "get" Handler.GetProducts
    (by decide)

/-- C5. `GetHandler` fails exactly when the key is no key of the table and no table
pattern matches it structurally, and the error text is then
`handler not found for route: ` followed by the upper-cased method, a space and the
normalised path; this holds for every case mapping `upper`, so for `strings.ToUpper`. -/
theorem GetHandler_not_found_iff (upper : String → String) (order : List (String × Handler))
    (route method : String) (hperm : order.Perm handlers) :
    ((∃ msg, GetHandler upper order route method = Except.error msg) ↔
      (routeKey upper route method ∉ handlers.map Prod.fst ∧
        ∀ e ∈ handlers, matchRoute e.1 (routeKey upper route method) = false)) ∧
    (∀ msg, GetHandler upper order route method = Except.error msg →
      msg = "handler not found for route: " ++ upper method ++ " " ++ TrimPrefix route) := by
  rw [GetHandler_of_perm upper order route method hperm]
  unfold GetHandler
  simp only
  cases hl : handlers.lookup (routeKey upper route method) with
  | some h =>
    have hmem : routeKey upper route method ∈ handlers.map Prod.fst := by
      by_contra hc
      have : handlers.lookup (routeKey upper route method) = none := by
        rw [List.lookup_eq_none_iff]
        intro p hp
        rw [bne_iff_ne]
        intro hk
        exact hc (List.mem_map.2 ⟨p, hp, hk.symm⟩)
      rw [this] at hl
      exact absurd hl (by simp)
    simp [hmem]
  | none =>
    have hnot : routeKey upper route method ∉ handlers.map Prod.fst := by
      intro hc
      obtain ⟨p, hp, hk⟩ := List.mem_map.1 hc
      exact (bne_iff_ne.1 (List.lookup_eq_none_iff.1 hl p hp)) hk.symm
    cases hf : handlers.find? (fun e => matchRoute e.1 (routeKey upper route method)) with
    | some e =>
      have he := List.find?_some hf
      have hm := List.mem_of_find?_eq_some hf
      simp only [false_iff, not_and, reduceCtorEq, exists_false, false_implies, implies_true,
        and_true]
      intro _ hall
      rw [hall e hm] at he
      exact absurd he (by simp)
    | none =>
      have hall := List.find?_eq_none.1 hf
      simp only [Except.error.injEq, exists_eq', true_iff]
      refine ⟨⟨hnot, fun e he => by simpa using hall e he⟩, fun msg h => h.symm⟩

theorem GetHandler_not_found_iff_witness :
    ((∃ msg, GetHandler upperASCII handlers.reverse "/orders" "get" = Except.error msg) ↔
      (routeKey upperASCII "/orders" "get" ∉ handlers.map Prod.fst ∧
        ∀ e ∈ handlers, matchRoute e.1 (routeKey upperASCII "/orders" "get") = false)) ∧
    (∀ msg, GetHandler upperASCII handlers.reverse "/orders" "get" = Except.error msg →
      msg = "handler not found for route: " ++ upperASCII "get" ++ " " ++
        TrimPrefix "/orders") :=
  GetHandler_not_found_iff upperASCII handlers.reverse "/orders" "get"
    (List.reverse_perm handlers)

/-- C7. Segment arity: for a pattern `pm pPath` and a request key `am aPath` whose paths
split on `/` into different numbers of segments, `matchRoute` returns false. -/
theorem matchRoute_segment_arity (pm pPath am aPath : String)
    (hlen : (Split pPath '/').length ≠ (Split aPath '/').length) :
    matchRoute (pm ++ " " ++ pPath) (am ++ " " ++ aPath) = false := by
  cases hm : matchRoute (pm ++ " " ++ pPath) (am ++ " " ++ aPath) with
  | false => rfl
  | true =>
    obtain ⟨m, p, a, h1, h2, hl, _⟩ := (matchRoute_eq_true_iff _ _).1 hm
    rw [(Split_key_eq_pair pm pPath m p h1).2, (Split_key_eq_pair am aPath m a h2).2] at hl
    exact absurd hl hlen

theorem matchRoute_segment_arity_witness :
    matchRoute "GET /products/{id}" "GET /products" = false ∧
    matchRoute "GET /products/{id}" "GET /products/{id}/extra" = false :=
  ⟨matchRoute_segment_arity "GET" "/products/{id}" "GET" "/products" (by decide),
   matchRoute_segment_arity "GET" "/products/{id}" "GET" "/products/{id}/extra" (by decide)⟩

/-- C6, as stated, fails: the empty last segment matches the parameter segment, and a
non-empty segment value holding a space does not. -/
theorem matchRoute_param_segment_counterexample :
    ¬ (matchRoute "GET /products/{id}" ("GET /products/" ++ "") = true ↔ "" ≠ "") ∧
    ¬ (matchRoute "GET /products/{id}" ("GET /products/" ++ "a b") = true ↔ "a b" ≠ "") := by
  decide

/-- C6, amended. For every `s` without `/`, `matchRoute` accepts `GET /products/` followed
by `s` for the pattern `GET /products/{id}` exactly when `s` holds no space; the empty
segment is accepted too. -/
theorem matchRoute_param_segment (s : String) (h : '/' ∉ s.data) :
    matchRoute "GET /products/{id}" ("GET /products/" ++ s) = true ↔ ' ' ∉ s.data := by
  have hkey : "GET /products/" ++ s = "GET" ++ String.singleton ' ' ++ ("/products/" ++ s) := by
    apply String.ext
    simp [String.data_append, String.singleton]
  have hpath : "/products/" ++ s =
      "" ++ String.singleton '/' ++ ("products" ++ String.singleton '/' ++ s) := by
    apply String.ext
    simp [String.data_append, String.singleton]
  have hsegs : Split ("/products/" ++ s) '/' = ["", "products", s] := by
    rw [hpath, Split_append_sep _ _ _ (by decide), Split_append_sep _ _ _ (by decide),
      Split_of_not_mem s '/' h]
  have hpat : Split "GET /products/{id}" ' ' = ["GET", "/products/{id}"] := by decide
  have hpsegs : Split "/products/{id}" '/' = ["", "products", "{id}"] := by decide
  constructor
  · intro hm hs
    obtain ⟨m, pPath, aPath, _, h2, _, _⟩ := (matchRoute_eq_true_iff _ _).1 hm
    have hlen := Split_length ("GET /products/" ++ s) ' '
    rw [h2] at hlen
    have hcount : 0 < s.data.count ' ' := List.count_pos_iff.2 hs
    have hdata : ("GET /products/" ++ s).data = "GET /products/".data ++ s.data :=
      String.data_append _ _
    have hc : "GET /products/".data.count ' ' = 1 := by decide
    rw [hdata, List.count_append, hc] at hlen
    simp only [List.length_cons, List.length_nil] at hlen
    omega
  · intro hs
    have hsp : ' ' ∉ ("/products/" ++ s).data := by
      rw [String.data_append]
      intro hmem
      rcases List.mem_append.1 hmem with h1 | h1
      · exact absurd h1 (by decide)
      · exact hs h1
    have hact : Split ("GET /products/" ++ s) ' ' = ["GET", "/products/" ++ s] := by
      rw [hkey, Split_append_sep _ _ _ (by decide), Split_of_not_mem _ ' ' hsp]
    rw [matchRoute_eq_true_iff]
    refine ⟨"GET", "/products/{id}", "/products/" ++ s, hpat, hact, ?_, ?_⟩
    · rw [hpsegs, hsegs]
      rfl
    · rw [hpsegs, hsegs]
      have hb : (HasPrefix "{id}" && HasSuffix "{id}") = true := by decide
      simp [segmentsMatch, hb]

theorem matchRoute_param_segment_witness :
    (matchRoute "GET /products/{id}" ("GET /products/" ++ "42") = true ↔ ' ' ∉ "42".data) :=
  matchRoute_param_segment "42" (by decide)

/-- C10. The route table is non-overlapping: for every request key at most one registered
pattern satisfies `matchRoute`, and so the result of `GetHandler` is the same for every
iteration order of the table (whatever the case mapping `upper` is). -/
theorem handlers_non_overlapping :
    (∀ (key : String), ∀ e1 ∈ handlers, ∀ e2 ∈ handlers,
      matchRoute e1.1 key = true → matchRoute e2.1 key = true → e1 = e2) ∧
    (∀ (upper : String → String) (order1 order2 : List (String × Handler))
      (route method : String),
      order1.Perm handlers → order2.Perm handlers →
      GetHandler upper order1 route method = GetHandler upper order2 route method) :=
  ⟨handlers_match_unique, fun upper order1 order2 route method h1 h2 => by
    rw [GetHandler_of_perm upper order1 route method h1,
      GetHandler_of_perm upper order2 route method h2]⟩

theorem handlers_non_overlapping_witness :
    (("GET /products/{id}", Handler.GetProduct) : String × Handler) =
        ("GET /products/{id}", Handler.GetProduct) ∧
    GetHandler upperASCII handlers.reverse "//products/42" "get" =
      GetHandler upperASCII handlers "//products/42" "get" :=
  ⟨handlers_non_overlapping.1 "GET /products/42"
      ("GET /products/{id}", Handler.GetProduct) (by decide)
      ("GET /products/{id}", Handler.GetProduct) (by decide) (by decide) (by decide),
   handlers_non_overlapping.2 upperASCII handlers.reverse handlers "//products/42" "get"
      (List.reverse_perm handlers) (List.Perm.refl handlers)⟩

/-- C1 at its own witnesses, for every case mapping `upper` that leaves `GET` as it is (as
`strings.ToUpper` does). The normalised route has lost its leading `/`, so the key is
`GET products`, which is no table key and which no table pattern matches: the lookup of
`/products` and of `/products/42` ends in the not-found error. -/
theorem GetHandler_registered_route_not_found (upper : String → String)
    (hGET : upper "GET" = "GET") :
    routeKey upper "/products" "GET" = "GET products" ∧
    handlers.all (fun e => !matchRoute e.1 "GET products") = true ∧
    GetHandler upper handlers "/products" "GET" =
      Except.error "handler not found for route: GET products" ∧
    handlers.all (fun e => !matchRoute e.1 "GET products/42") = true ∧
    GetHandler upper handlers "/products/42" "GET" =
      Except.error "handler not found for route: GET products/42" := by
  refine ⟨?_, by decide, ?_, by decide, ?_⟩
  · simp only [routeKey, hGET]
    decide
  · simp only [GetHandler, routeKey, hGET]
    rfl
  · simp only [GetHandler, routeKey, hGET]
    rfl

theorem GetHandler_registered_route_not_found_witness :
    routeKey upperASCII "/products" "GET" = "GET products" ∧
    handlers.all (fun e => !matchRoute e.1 "GET products") = true ∧
    GetHandler upperASCII handlers "/products" "GET" =
      Except.error "handler not found for route: GET products" ∧
    handlers.all (fun e => !matchRoute e.1 "GET products/42") = true ∧
    GetHandler upperASCII handlers "/products/42" "GET" =
      Except.error "handler not found for route: GET products/42" :=
  GetHandler_registered_route_not_found upperASCII (by decide)

/-- C3. Shape of the dynamic update: when the body, in its enumeration order, has the
allowed keys `f1..fk` (k at least 1) with values `v1..vk`, `UpdateProduct` builds exactly
`UPDATE products SET f1 = $1, ..., fk = $k WHERE id = $(k+1)` with the arguments
`[v1, ..., vk, id]`, whose count is `k + 1` and whose last element is the id. -/
theorem UpdateProduct_shape {α : Type} (req : List (String × α)) (id : Int)
    (hk : 1 ≤ (allowedEntries req).length) :
    UpdateProduct req id =
      UpdateOutcome.exec (expectedStatement ((allowedEntries req).map Prod.fst))
        (expectedArgs (allowedEntries req) id) ∧
    (expectedArgs (allowedEntries req) id).length = (allowedEntries req).length + 1 ∧
    (expectedArgs (allowedEntries req) id).getLast? = some (Arg.id id) := by
  have hne : (allowedEntries req).isEmpty = false := by
    cases h : allowedEntries req with
    | nil =>
      rw [h] at hk
      exact absurd hk (Nat.not_succ_le_zero 0)
    | cons e es => rfl
  refine ⟨?_, by simp [expectedArgs], by simp [expectedArgs]⟩
  rw [UpdateProduct_eq, hne]
  rfl

theorem UpdateProduct_shape_witness :
    UpdateProduct [("name", JSONValue.string "Widget"), ("secret_cost", JSONValue.number 1)] 7 =
      UpdateOutcome.exec "UPDATE products SET name = $1 WHERE id = $2"
        [Arg.value (JSONValue.string "Widget"), Arg.id 7] :=
  (UpdateProduct_shape
    [("name", JSONValue.string "Widget"), ("secret_cost", JSONValue.number 1)] 7
    (by decide)).1

/-- C4. `UpdateProduct` answers the bad request `No fields to update`, and builds no
statement, exactly when no key of the body is in the allow-list; a body with an allowed key
gets a statement. The body with the one key `unknown_field` and the empty body are
rejected. -/
theorem UpdateProduct_no_fields_iff {α : Type} (req : List (String × α)) (id : Int) :
    (UpdateProduct req id = UpdateOutcome.badRequest "No fields to update" ↔
      ∀ e ∈ req, allowedFieldsAt e.1 = false) ∧
    ((∃ query args, UpdateProduct req id = UpdateOutcome.exec query args) ↔
      ∃ e ∈ req, allowedFieldsAt e.1 = true) ∧
    UpdateProduct [("unknown_field", JSONValue.number 5)] id =
      UpdateOutcome.badRequest "No fields to update" ∧
    UpdateProduct ([] : List (String × JSONValue)) id =
      UpdateOutcome.badRequest "No fields to update" := by
  have hempty : (allowedEntries req).isEmpty = true ↔ ∀ e ∈ req, allowedFieldsAt e.1 = false := by
    simp [allowedEntries, List.isEmpty_iff, List.filter_eq_nil_iff]
  refine ⟨?_, ?_, rfl, rfl⟩
  · rw [UpdateProduct_eq, ← hempty]
    cases h : (allowedEntries req).isEmpty <;> simp
  · rw [UpdateProduct_eq]
    cases h : (allowedEntries req).isEmpty
    · have hex : ∃ e ∈ req, allowedFieldsAt e.1 = true := by
        by_contra hc
        have : (allowedEntries req).isEmpty = true :=
          hempty.2 (fun e he => by
            cases hv : allowedFieldsAt e.1
            · rfl
            · exact absurd ⟨e, he, hv⟩ hc)
        rw [h] at this
        exact absurd this (by decide)
      simp [hex]
    · have hall := hempty.1 h
      simp only [if_true, reduceCtorEq, exists_false, false_iff, not_exists, not_and]
      intro e he
      simp [hall e he]

/-- C2, as stated, fails: the body key `id` is not in the allow-list, yet `id` occurs in
the text of the generated statement (in its fixed `WHERE id` part). -/
theorem UpdateProduct_disallowed_substring_counterexample :
    allowedFieldsAt "id" = false ∧
    UpdateProduct [("name", JSONValue.string "Widget"), ("id", JSONValue.number 9)] 7 =
      UpdateOutcome.exec "UPDATE products SET name = $1 WHERE id = $2"
        [Arg.value (JSONValue.string "Widget"), Arg.id 7] ∧
    List.IsInfix "id".data "UPDATE products SET name = $1 WHERE id = $2".data := by
  refine ⟨by decide, by decide, ?_⟩
  exact ⟨"UPDATE products SET name = $1 WHERE ".data, " = $2".data, by decide⟩

/-- C2, amended. Whenever `UpdateProduct` builds a statement, it is the statement
`UPDATE products SET f1 = $1, ..., fk = $k WHERE id = $(k+1)` over field names that are all
allow-listed keys of the body, and it is the statement (with the arguments) built from the
body with its disallowed entries removed: no disallowed key is written into the text. -/
theorem UpdateProduct_allow_list {α : Type} (req : List (String × α)) (id : Int)
    (query : String) (args : List (Arg α))
    (h : UpdateProduct req id = UpdateOutcome.exec query args) :
    (∃ fs : List String, query = expectedStatement fs ∧
      ∀ f ∈ fs, allowedFieldsAt f = true ∧ f ∈ req.map Prod.fst) ∧
    UpdateProduct (req.filter (fun e => allowedFieldsAt e.1)) id =
      UpdateOutcome.exec query args := by
  have hfilter : allowedEntries (req.filter (fun e => allowedFieldsAt e.1)) = allowedEntries req := by
    simp [allowedEntries]
  constructor
  · rw [UpdateProduct_eq] at h
    cases he : (allowedEntries req).isEmpty
    · rw [he] at h
      simp only [Bool.false_eq_true, if_false, UpdateOutcome.exec.injEq] at h
      refine ⟨(allowedEntries req).map Prod.fst, h.1.symm, ?_⟩
      intro f hf
      obtain ⟨e, hmem, rfl⟩ := List.mem_map.1 hf
      have := List.mem_filter.1 hmem
      exact ⟨this.2, List.mem_map.2 ⟨e, this.1, rfl⟩⟩
    · rw [he] at h
      simp at h
  · rw [← h, UpdateProduct_eq, UpdateProduct_eq, hfilter]

theorem UpdateProduct_allow_list_witness :
    (∃ fs : List String, "UPDATE products SET name = $1 WHERE id = $2" = expectedStatement fs ∧
      ∀ f ∈ fs, allowedFieldsAt f = true ∧
        f ∈ [("name", JSONValue.string "Widget"), ("id", JSONValue.number 9)].map Prod.fst) ∧
    UpdateProduct
      ([("name", JSONValue.string "Widget"), ("id", JSONValue.number 9)].filter
        (fun e => allowedFieldsAt e.1)) 7 =
      UpdateOutcome.exec "UPDATE products SET name = $1 WHERE id = $2"
        [Arg.value (JSONValue.string "Widget"), Arg.id 7] :=
  UpdateProduct_allow_list
    [("name", JSONValue.string "Widget"), ("id", JSONValue.number 9)] 7
    "UPDATE products SET name = $1 WHERE id = $2"
    [Arg.value (JSONValue.string "Widget"), Arg.id 7] (by decide)

/-- C9, as stated, fails on the blank category filter: with no search term and the
`category_id` made of one space, which is not the empty string, the optional condition is
skipped, so the statement has no placeholder and no argument, not one. -/
theorem GetProducts_blank_category_counterexample :
    " " ≠ "" ∧
    GetProducts "" " " =
      ("SELECT * FROM products WHERE is_active = true ORDER BY name LIMIT 50", []) ∧
    ¬ ((GetProducts "" " ").2.length =
      2 * (if "" ≠ "" then 1 else 0) + (if " " ≠ "" then 1 else 0)) := by
  decide

/-- C9, amended. For every base statement and every sequence of `AddCondition` and
`AddOptionalCondition` calls, the indices substituted into the statement are the consecutive
numbers from the first free index of the base statement, one for each bound argument,
whatever was skipped. For `GetProducts` the placeholders of the built statement are exactly
`$1..$n` and the argument list has length `n`, where `n` counts 2 for a non-empty search
and 1 for a `category_id` that is non-empty after trimming. -/
theorem QueryBuilder_index_contiguity :
    (∀ (base : String) (calls : List BuilderCall),
      (calls.foldl QueryState.call (NewQueryBuilder base)).indices =
        List.range' ((placeholders base).length + 1)
          (calls.foldl QueryState.call (NewQueryBuilder base)).Build.2.length) ∧
    (∀ (search categoryID : String),
      placeholders (GetProducts search categoryID).1 =
        List.range' 1 (2 * (if search ≠ "" then 1 else 0) +
          (if TrimSpace categoryID ≠ "" then 1 else 0)) ∧
      (GetProducts search categoryID).2.length =
        2 * (if search ≠ "" then 1 else 0) +
          (if TrimSpace categoryID ≠ "" then 1 else 0)) := by
  constructor
  · intro base calls
    have h0 : (NewQueryBuilder base).Gapless ((placeholders base).length + 1) := by
      simp [QueryState.Gapless, NewQueryBuilder, QueryState.indices]
    exact (foldl_call_gapless _ calls _ h0).1
  · intro search categoryID
    rw [GetProducts_eq]
    by_cases hs : search = "" <;> by_cases hc : TrimSpace categoryID = ""
    · simp only [hs, hc, if_true, ne_eq, not_true_eq_false, if_false]
      exact ⟨by decide, rfl⟩
    · simp only [hs, hc, if_true, ne_eq, not_true_eq_false, if_false, not_false_eq_true]
      exact ⟨by decide, rfl⟩
    · simp only [hs, hc, if_true, ne_eq, not_true_eq_false, if_false, not_false_eq_true]
      exact ⟨by decide, rfl⟩
    · simp only [hs, hc, if_true, ne_eq, not_true_eq_false, if_false, not_false_eq_true]
      exact ⟨by decide, rfl⟩
